import Mathlib

/-! # Verification of the `null` package's `Timestamp` type

Shallow embedding of `src/timestamp.go` from the `zero-pkg/null` repository.

Go's `time.Time` is modelled as an absolute instant — a whole number of
seconds since the Unix epoch plus a nanosecond remainder — together with an
abstract location identifier.  The monotonic clock reading is omitted: no
operation of this package produces one, and in Go a `time.Time` carrying a
monotonic reading always has the local location, so two times in different
locations never compare by monotonic reading.

Machine integers are modelled as `Int`/`Nat` with explicit range conditions
where the Go code is typed at 64 bits.  Byte slices are modelled as
`List Char`; all wire data handled by this package is ASCII.
-/

deriving instance DecidableEq for Except

namespace NullPkg

/-- Model of Go `time.Time`: absolute instant (`unixSec` whole seconds since
the Unix epoch, `nsec` nanosecond remainder with `0 ≤ nsec < 10^9`) plus an
abstract location identifier `loc` (timezone/offset representation). -/
structure GoTime where
  unixSec : Int
  nsec : Nat
  loc : Int
  deriving DecidableEq

/-- The location identifier standing for UTC. -/
def locUTC : Int := 0

/-- The location identifier standing for the process-local zone returned by
`time.Unix`; no claim depends on its concrete value. -/
def locLocal : Int := 1

/-- Go `time.Time{}`, the zero instant: January 1, year 1, 00:00:00 UTC,
whose `Unix()` value is `-62135596800`. -/
def zeroGoTime : GoTime := ⟨-62135596800, 0, locUTC⟩

/-- Go `t.Unix()`: seconds since the Unix epoch, truncating the
sub-second remainder. -/
def GoTime.unix (t : GoTime) : Int := t.unixSec

/-- Go `time.Unix(sec, 0)`: the instant `sec` seconds since the epoch, in the
local location. -/
def timeUnix (sec : Int) : GoTime := ⟨sec, 0, locLocal⟩

/-- Go `t.Equal(u)` on `time.Time`: same absolute instant, ignoring the
location. -/
def GoTime.timeEqual (t u : GoTime) : Bool :=
  decide (t.unixSec = u.unixSec) && decide (t.nsec = u.nsec)

/-- `Timestamp` from `src/timestamp.go`: a nullable `time.Time`
(the embedded `sql.NullTime`'s two fields). -/
structure Timestamp where
  Time : GoTime
  Valid : Bool
  deriving DecidableEq

/-- `NewTimestamp` from `src/timestamp.go`. -/
def NewTimestamp (t : GoTime) (valid : Bool) : Timestamp := ⟨t, valid⟩

/-- `TimestampFrom` from `src/timestamp.go`: always valid. -/
def TimestampFrom (t : GoTime) : Timestamp := NewTimestamp t true

/-- `TimestampFromPtr` from `src/timestamp.go`: null when the pointer is nil. -/
def TimestampFromPtr (t : Option GoTime) : Timestamp :=
  match t with
  | none => NewTimestamp zeroGoTime false
  | some v => NewTimestamp v true

/-- `IsZero` from `src/timestamp.go`: true for invalid Timestamps only. -/
def Timestamp.IsZero (t : Timestamp) : Bool := !t.Valid

/-- `Equal` from `src/timestamp.go`: same validity and, when both valid, the
same absolute instant regardless of location. -/
def Timestamp.Equal (t other : Timestamp) : Bool :=
  (t.Valid == other.Valid) && (!t.Valid || t.Time.timeEqual other.Time)

/-- `ExactEqual` from `src/timestamp.go`: same validity and, when both valid,
identical `time.Time` values (Go `==`, including the location). -/
def Timestamp.ExactEqual (t other : Timestamp) : Bool :=
  (t.Valid == other.Valid) && (!t.Valid || decide (t.Time = other.Time))

/-- The JSON decode failure returned by the external `encoding/json` decoder
when the input is not the null literal and not an int64 number (syntax errors
and wrong-shaped values alike; no claim distinguishes the two kinds). -/
inductive JsonErr where
  | notInt64 (data : List Char)
  deriving DecidableEq

/-- The numeric-parse failure of `strconv.ParseInt`. -/
inductive NumErr where
  | synErr
  | rangeErr
  deriving DecidableEq

/-- Errors surfaced by `Timestamp`'s codecs: `DecodeError` wrapping an
underlying JSON or numeric parse error, and the database `TypeMismatch`. -/
inductive GoError where
  | decodeJSON (under : JsonErr)
  | decodeText (under : NumErr)
  | typeMismatch
  deriving DecidableEq

/-- The decimal digit characters, `'0'` through `'9'`. -/
def decChar (d : Nat) : Char :=
  match d with
  | 0 => '0' | 1 => '1' | 2 => '2' | 3 => '3' | 4 => '4'
  | 5 => '5' | 6 => '6' | 7 => '7' | 8 => '8' | _ => '9'

/-- Digit-emitting loop of Go `strconv.FormatInt(_, 10)` (fuelled so that it
is structurally recursive; `formatNat` supplies sufficient fuel). -/
def formatNatAux : Nat → Nat → List Char → List Char
  | 0, _, acc => acc
  | fuel + 1, n, acc =>
    if n < 10 then decChar n :: acc
    else formatNatAux fuel (n / 10) (decChar (n % 10) :: acc)

/-- Decimal formatting of a natural number, most significant digit first. -/
def formatNat (n : Nat) : List Char := formatNatAux (n + 1) n []

/-- Go `strconv.FormatInt(v, 10)`: decimal ASCII, `'-'`-prefixed when
negative. -/
def formatInt (v : Int) : List Char :=
  if v < 0 then '-' :: formatNat v.natAbs else formatNat v.toNat

/-- ASCII decimal digit test, `'0' ≤ c ≤ '9'`. -/
def isDig (c : Char) : Bool := decide (48 ≤ c.toNat ∧ c.toNat ≤ 57)

/-- Value of a decimal digit string read left to right, starting from
accumulator `a`. -/
def decVal (a : Nat) (l : List Char) : Nat :=
  l.foldl (fun x c => x * 10 + (c.toNat - 48)) a

/-- JSON whitespace: space, tab, newline, carriage return. -/
def isWS (c : Char) : Bool :=
  decide (c.toNat = 32 ∨ c.toNat = 9 ∨ c.toNat = 10 ∨ c.toNat = 13)

/-- Strip leading and trailing JSON whitespace. -/
def trimWS (l : List Char) : List Char :=
  ((l.dropWhile isWS).reverse.dropWhile isWS).reverse

/-- A JSON integer token: `'0' | [1-9][0-9]*`, no fraction, no exponent,
no leading zeros. -/
def jsonNatToken (l : List Char) : Option Nat :=
  if l = [] then none
  else if l.all isDig then
    if l.head? = some '0' ∧ l ≠ ['0'] then none else some (decVal 0 l)
  else none

/-- A signed JSON integer token that fits in int64. -/
def jsonIntToken (l : List Char) : Option Int :=
  match l with
  | [] => none
  | c :: rest =>
    if c = '-' then
      match jsonNatToken rest with
      | none => none
      | some n => if (n : Int) ≤ 2 ^ 63 then some (-(n : Int)) else none
    else
      match jsonNatToken (c :: rest) with
      | none => none
      | some n => if (n : Int) < 2 ^ 63 then some ((n : Int)) else none

/-- Model of the external `encoding/json` decode primitive applied to an
`int64` target (the JSON library is an external collaborator, spec §1):
surrounding whitespace is allowed; the literal `null` succeeds without
touching the target (`ok none`); an int64-ranged integer token succeeds with
its value; everything else (objects, arrays, strings, booleans, fractions,
exponents, overflow, malformed input) fails. -/
def jsonUnmarshalInt64 (data : List Char) : Except JsonErr (Option Int) :=
  if trimWS data = ['n', 'u', 'l', 'l'] then .ok none
  else
    match jsonIntToken (trimWS data) with
    | some v => .ok (some v)
    | none => .error (.notInt64 data)

/-- Modelled from the spec: the package-level `nullBytes` constant referenced
by `UnmarshalJSON` is declared in a repository file that is not under `src/`;
the spec pins its value via "if input is exactly the literal `null`". -/
def nullBytes : List Char := ['n', 'u', 'l', 'l']

/-- `MarshalJSON` from `src/timestamp.go`: `null` when invalid, otherwise the
decimal of `t.Time.Unix()`.  Returns the bytes and the (always absent)
error. -/
def marshalJSON (t : Timestamp) : List Char × Option GoError :=
  if !t.Valid then (nullBytes, none)
  else (formatInt t.Time.unix, none)

/-- `UnmarshalJSON` from `src/timestamp.go`, acting on receiver `t`:
returns the updated receiver and the returned error. -/
def unmarshalJSON (t : Timestamp) (data : List Char) : Timestamp × Option GoError :=
  if data = nullBytes then ({ t with Valid := false }, none)
  else
    match jsonUnmarshalInt64 data with
    | .error e => (t, some (.decodeJSON e))
    | .ok o => (⟨timeUnix (o.getD 0), true⟩, none)

/-- `MarshalText` from `src/timestamp.go`: empty bytes when invalid,
otherwise the decimal of `t.Time.Unix()`. -/
def marshalText (t : Timestamp) : List Char × Option GoError :=
  if !t.Valid then ([], none)
  else (formatInt t.Time.unix, none)

/-- Digit value of a character as in Go `strconv`: `'0'`–`'9'`,
`'a'`–`'z'`, `'A'`–`'Z'`. -/
def digVal (c : Char) : Option Nat :=
  if 48 ≤ c.toNat ∧ c.toNat ≤ 57 then some (c.toNat - 48)
  else if 97 ≤ c.toNat ∧ c.toNat ≤ 122 then some (c.toNat - 97 + 10)
  else if 65 ≤ c.toNat ∧ c.toNat ≤ 90 then some (c.toNat - 65 + 10)
  else none

/-- `2^64 - 1`, the largest uint64. -/
def maxU64 : Nat := 18446744073709551615

/-- Base detection of Go `strconv.ParseUint(s, 0, _)`: a leading `0b`/`0o`/
`0x` (with at least one following character) selects base 2/8/16; any other
leading `0` selects base 8 and consumes the `0`; otherwise base 10. -/
def detectBase (s : List Char) : Nat × List Char :=
  match s with
  | [] => (10, [])
  | c :: rest =>
    if c = '0' then
      match rest with
      | [] => (8, [])
      | c2 :: rest2 =>
        if rest2 ≠ [] ∧ (c2 = 'b' ∨ c2 = 'B') then (2, rest2)
        else if rest2 ≠ [] ∧ (c2 = 'o' ∨ c2 = 'O') then (8, rest2)
        else if rest2 ≠ [] ∧ (c2 = 'x' ∨ c2 = 'X') then (16, rest2)
        else (8, rest)
    else (10, s)

/-- Digit-consuming loop of Go `strconv.ParseUint(s, 0, 64)`: underscores are
skipped (recorded in the boolean), other characters must be digits below the
base, and the uint64 overflow checks mirror Go's `cutoff`/`n1` tests.
Returns the accumulated value and whether an underscore was seen. -/
def parseUintLoop (base : Nat) : List Char → Nat → Bool → Except NumErr (Nat × Bool)
  | [], n, u => .ok (n, u)
  | c :: rest, n, u =>
    if c = '_' then parseUintLoop base rest n true
    else if digVal c = none then .error .synErr
    else if base ≤ (digVal c).getD 0 then .error .synErr
    else if maxU64 / base + 1 ≤ n then .error .rangeErr
    else if maxU64 < n * base + (digVal c).getD 0 then .error .rangeErr
    else parseUintLoop base rest (n * base + (digVal c).getD 0) u

/-- Inner loop of Go `strconv`'s `underscoreOK`: `saw` is the category of the
previous character (`'0'` digit, `'_'` underscore, `'!'` other, `'^'`
start). -/
def uOKLoop (hex : Bool) : List Char → Char → Bool
  | [], saw => saw ≠ '_'
  | c :: rest, saw =>
    if (48 ≤ c.toNat ∧ c.toNat ≤ 57) ∨
        (hex = true ∧ ((97 ≤ c.toNat ∧ c.toNat ≤ 102) ∨ (65 ≤ c.toNat ∧ c.toNat ≤ 70))) then
      uOKLoop hex rest '0'
    else if c = '_' then
      if saw ≠ '0' then false else uOKLoop hex rest '_'
    else if saw = '_' then false
    else uOKLoop hex rest '!'

/-- Go `strconv`'s `underscoreOK`: underscores may appear only between the
base prefix and a digit or between successive digits. -/
def underscoreOK (s : List Char) : Bool :=
  let s1 :=
    match s with
    | c :: r => if c = '+' ∨ c = '-' then r else s
    | [] => []
  match s1 with
  | c0 :: c :: r =>
    if c0 = '0' ∧ (c = 'b' ∨ c = 'B' ∨ c = 'o' ∨ c = 'O' ∨ c = 'x' ∨ c = 'X') then
      uOKLoop (c = 'x' ∨ c = 'X') r '0'
    else uOKLoop false s1 '^'
  | _ => uOKLoop false s1 '^'

/-- Go `strconv.ParseUint(s, 0, 64)`: base detection, digit loop, and the
final underscore-placement check. -/
def parseUint0 (s : List Char) : Except NumErr Nat :=
  match s with
  | [] => .error .synErr
  | _ :: _ =>
    match parseUintLoop (detectBase s).1 (detectBase s).2 0 false with
    | .error e => .error e
    | .ok (n, u) => if u = true ∧ underscoreOK s = false then .error .synErr else .ok n

/-- Go `strconv.ParseInt(s, 0, 64)`: optional sign, then `ParseUint`, then
the int64 range checks. -/
def parseInt0i64 (s : List Char) : Except NumErr Int :=
  match s with
  | [] => .error .synErr
  | c :: rest =>
    match parseUint0 (if c = '+' ∨ c = '-' then rest else c :: rest) with
    | .error e => .error e
    | .ok un =>
      if c ≠ '-' ∧ 2 ^ 63 ≤ un then .error .rangeErr
      else if c = '-' ∧ 2 ^ 63 < un then .error .rangeErr
      else if c = '-' then .ok (-(un : Int)) else .ok ((un : Int))

/-- `UnmarshalText` from `src/timestamp.go`, acting on receiver `t`:
empty input and the literal `"null"` (v3 compatibility) set the receiver
invalid; otherwise the input is parsed with `strconv.ParseInt(str, 0, 64)`. -/
def unmarshalText (t : Timestamp) (text : List Char) : Timestamp × Option GoError :=
  if text = [] ∨ text = ['n', 'u', 'l', 'l'] then ({ t with Valid := false }, none)
  else
    match parseInt0i64 text with
    | .error e => (t, some (.decodeText e))
    | .ok v => (⟨timeUnix v, true⟩, none)

/-- The kinds of raw values a database driver hands to `Scan`
(spec §6: null, an integer, a byte sequence, or a native time value). -/
inductive ScanValue where
  | nullv
  | nativeTime (v : GoTime)
  | int64v (v : Int)
  | bytesv (b : List Char)
  deriving DecidableEq

/-- Modelled from the spec: `Scan` is provided by the embedded database
null-time type, whose code is not under `src/`.  Spec §4.1: null sets
invalid with the zero instant; a native time value sets valid and copies it;
any other input kind fails with TypeMismatch, with the receiver's post-error
state declared undefined by the spec.  The embedded standard-library
implementation first sets `Valid = true` and only then attempts the type
conversion, which fails for the remaining kinds without touching `Time`;
the model records that behaviour. -/
def scan (t : Timestamp) (raw : ScanValue) : Timestamp × Option GoError :=
  match raw with
  | .nullv => (⟨zeroGoTime, false⟩, none)
  | .nativeTime v => (⟨v, true⟩, none)
  | .int64v _ => (⟨t.Time, true⟩, some .typeMismatch)
  | .bytesv _ => (⟨t.Time, true⟩, some .typeMismatch)

/-! ## Decimal formatting: proof-side recursion and round-trip lemmas -/

/-- Proof-side reformulation of the decimal formatter, recursing on the
value instead of fuel. -/
def natChars (n : Nat) : List Char :=
  if _h : n < 10 then [decChar n]
  else natChars (n / 10) ++ [decChar (n % 10)]
decreasing_by exact Nat.div_lt_self (by omega) (by omega)

theorem natChars_lt {n : Nat} (h : n < 10) : natChars n = [decChar n] := by
  unfold natChars; simp [h]

theorem natChars_ge {n : Nat} (h : ¬n < 10) :
    natChars n = natChars (n / 10) ++ [decChar (n % 10)] := by
  conv_lhs => unfold natChars
  rw [dif_neg h]

theorem decChar_toNat {d : Nat} (h : d < 10) : (decChar d).toNat = 48 + d := by
  interval_cases d <;> rfl

theorem isDig_decChar {d : Nat} (h : d < 10) : isDig (decChar d) = true := by
  interval_cases d <;> decide

theorem formatNatAux_eq (fuel : Nat) :
    ∀ (n : Nat) (acc : List Char), n < fuel →
      formatNatAux fuel n acc = natChars n ++ acc := by
  induction fuel with
  | zero => intro n acc h; omega
  | succ f ih =>
    intro n acc h
    by_cases h10 : n < 10
    · rw [formatNatAux, if_pos h10, natChars_lt h10]; rfl
    · rw [formatNatAux, if_neg h10, ih (n / 10) _ (by omega), natChars_ge h10,
        List.append_assoc]
      rfl

theorem formatNat_eq (n : Nat) : formatNat n = natChars n := by
  rw [formatNat, formatNatAux_eq (n + 1) n [] (by omega), List.append_nil]

theorem decVal_cons (a : Nat) (c : Char) (l : List Char) :
    decVal a (c :: l) = decVal (a * 10 + (c.toNat - 48)) l := rfl

theorem decVal_affine (l : List Char) :
    ∀ a : Nat, decVal a l = a * 10 ^ l.length + decVal 0 l := by
  induction l with
  | nil => intro a; simp [decVal]
  | cons c t ih =>
    intro a
    rw [decVal_cons, decVal_cons, ih (a * 10 + (c.toNat - 48)),
      ih (0 * 10 + (c.toNat - 48)), List.length_cons, pow_succ]
    ring

/-- The digits of `n`: nonempty, all decimal digits, decimal value `n`, and
no leading zero unless `n = 0`. -/
theorem natChars_spec (n : Nat) :
    natChars n ≠ [] ∧ (∀ c ∈ natChars n, isDig c = true) ∧
      (∀ a, decVal a (natChars n) = a * 10 ^ (natChars n).length + n) ∧
      (n ≠ 0 → (natChars n).head? ≠ some '0') := by
  induction n using Nat.strong_induction_on with
  | _ n ih =>
    by_cases h10 : n < 10
    · rw [natChars_lt h10]
      refine ⟨by simp, ?_, ?_, ?_⟩
      · intro c hc
        rw [List.mem_singleton] at hc
        subst hc; exact isDig_decChar h10
      · intro a
        rw [decVal_cons, decVal]
        simp [decChar_toNat h10]
      · intro hn
        simp only [List.head?_cons, ne_eq, Option.some.injEq]
        intro hz
        have h1 := congrArg Char.toNat hz
        rw [decChar_toNat h10, show ('0').toNat = 48 from rfl] at h1
        exact hn (by omega)
    · rw [natChars_ge h10]
      obtain ⟨hne, hdig, hval, hhead⟩ := ih (n / 10) (Nat.div_lt_self (by omega) (by omega))
      refine ⟨by simp, ?_, ?_, ?_⟩
      · intro c hc
        rw [List.mem_append] at hc
        rcases hc with hc | hc
        · exact hdig c hc
        · rw [List.mem_singleton] at hc
          subst hc
          exact isDig_decChar (Nat.mod_lt _ (by omega))
      · intro a
        rw [decVal, List.foldl_append, ← decVal, ← decVal, hval a, decVal_cons, decVal,
          List.length_append, List.length_singleton]
        simp [decChar_toNat (Nat.mod_lt n (show 0 < 10 by omega))]
        rw [pow_succ]
        have := Nat.div_add_mod n 10
        ring_nf
        omega
      · intro _
        cases hl : natChars (n / 10) with
        | nil => exact absurd hl hne
        | cons x xs =>
          simp only [List.cons_append, List.head?_cons]
          have := hhead (by omega)
          rw [hl] at this
          simpa using this

theorem natChars_ne_nil (n : Nat) : natChars n ≠ [] := (natChars_spec n).1

theorem natChars_all_dig (n : Nat) : ∀ c ∈ natChars n, isDig c = true :=
  (natChars_spec n).2.1

theorem decVal_natChars (n : Nat) : decVal 0 (natChars n) = n := by
  have := (natChars_spec n).2.2.1 0
  simpa using this

theorem natChars_head_ne_zero {n : Nat} (h : n ≠ 0) :
    (natChars n).head? ≠ some '0' := (natChars_spec n).2.2.2 h

/-! ## JSON decode of formatted integers -/

theorem isDig_toNat {c : Char} (h : isDig c = true) :
    48 ≤ c.toNat ∧ c.toNat ≤ 57 := by
  simpa [isDig] using h

theorem isDig_not_ws {c : Char} (h : isDig c = true) : isWS c = false := by
  have hb := isDig_toNat h
  simp [isWS]
  omega

theorem isDig_ne_minus {c : Char} (h : isDig c = true) : c ≠ '-' := by
  intro hc
  have hb := isDig_toNat h
  rw [hc, show ('-').toNat = 45 from rfl] at hb
  omega

theorem formatInt_chars {v : Int} : ∀ c ∈ formatInt v, isDig c = true ∨ c = '-' := by
  intro c hc
  rw [formatInt] at hc
  by_cases hv : v < 0
  · rw [if_pos hv, formatNat_eq] at hc
    rcases List.mem_cons.mp hc with rfl | hc
    · right; rfl
    · left; exact natChars_all_dig _ c hc
  · rw [if_neg hv, formatNat_eq] at hc
    left; exact natChars_all_dig _ c hc

theorem formatInt_not_ws {v : Int} : ∀ c ∈ formatInt v, isWS c = false := by
  intro c hc
  rcases formatInt_chars c hc with h | rfl
  · exact isDig_not_ws h
  · decide

theorem dropWhile_eq_self {p : Char → Bool} {l : List Char}
    (h : ∀ c ∈ l, p c = false) : l.dropWhile p = l := by
  cases l with
  | nil => rfl
  | cons a t => rw [List.dropWhile_cons, h a (by simp)]; simp

theorem trimWS_eq_self {l : List Char} (h : ∀ c ∈ l, isWS c = false) :
    trimWS l = l := by
  unfold trimWS
  rw [dropWhile_eq_self h,
    dropWhile_eq_self (fun c hc => h c (List.mem_reverse.mp hc)),
    List.reverse_reverse]

theorem trimWS_formatInt (v : Int) : trimWS (formatInt v) = formatInt v :=
  trimWS_eq_self formatInt_not_ws

theorem formatInt_ne_null (v : Int) : formatInt v ≠ nullBytes := by
  intro h
  have hn : 'n' ∈ formatInt v := by rw [h, nullBytes]; simp
  rcases formatInt_chars 'n' hn with hd | hd
  · have := isDig_toNat hd
    rw [show ('n').toNat = 110 from rfl] at this
    omega
  · exact absurd hd (by decide)

theorem formatInt_ne_nil (v : Int) : formatInt v ≠ [] := by
  rw [formatInt]
  by_cases hv : v < 0
  · rw [if_pos hv]; exact List.cons_ne_nil _ _
  · rw [if_neg hv, formatNat_eq]; exact natChars_ne_nil _

theorem jsonNatToken_natChars (n : Nat) : jsonNatToken (natChars n) = some n := by
  have hcond : ¬((natChars n).head? = some '0' ∧ natChars n ≠ ['0']) := by
    by_cases hn : n = 0
    · subst hn; rw [natChars_lt (by omega)]; simp [decChar]
    · intro hx; exact natChars_head_ne_zero hn hx.1
  rw [jsonNatToken, if_neg (natChars_ne_nil n),
    if_pos (List.all_eq_true.mpr (natChars_all_dig n)), if_neg hcond, decVal_natChars]

theorem jsonIntToken_cons (c : Char) (rest : List Char) :
    jsonIntToken (c :: rest) =
      if c = '-' then
        match jsonNatToken rest with
        | none => none
        | some n => if (n : Int) ≤ 2 ^ 63 then some (-(n : Int)) else none
      else
        match jsonNatToken (c :: rest) with
        | none => none
        | some n => if (n : Int) < 2 ^ 63 then some ((n : Int)) else none := rfl

theorem jsonIntToken_formatInt {v : Int} (h1 : -(2 ^ 63) ≤ v) (h2 : v < 2 ^ 63) :
    jsonIntToken (formatInt v) = some v := by
  by_cases hv : v < 0
  · rw [formatInt, if_pos hv, formatNat_eq, jsonIntToken_cons, if_pos rfl,
      jsonNatToken_natChars]
    show (if ((v.natAbs : Nat) : Int) ≤ 2 ^ 63 then some (-((v.natAbs : Nat) : Int))
      else none) = some v
    rw [if_pos (show ((v.natAbs : Nat) : Int) ≤ 2 ^ 63 by omega)]
    congr 1
    omega
  · rw [formatInt, if_neg hv, formatNat_eq]
    obtain ⟨c, t, hl⟩ : ∃ c t, natChars v.toNat = c :: t := by
      cases h : natChars v.toNat with
      | nil => exact absurd h (natChars_ne_nil _)
      | cons c t => exact ⟨c, t, rfl⟩
    have hdig : isDig c = true := natChars_all_dig _ c (by rw [hl]; simp)
    rw [hl, jsonIntToken_cons, if_neg (isDig_ne_minus hdig), ← hl,
      jsonNatToken_natChars]
    show (if ((v.toNat : Nat) : Int) < 2 ^ 63 then some ((v.toNat : Nat) : Int)
      else none) = some v
    rw [if_pos (show ((v.toNat : Nat) : Int) < 2 ^ 63 by omega)]
    congr 1
    omega

theorem jsonUnmarshalInt64_formatInt {v : Int} (h1 : -(2 ^ 63) ≤ v)
    (h2 : v < 2 ^ 63) : jsonUnmarshalInt64 (formatInt v) = .ok (some v) := by
  rw [jsonUnmarshalInt64, trimWS_formatInt,
    if_neg (show formatInt v ≠ ['n', 'u', 'l', 'l'] from formatInt_ne_null v),
    jsonIntToken_formatInt h1 h2]

/-! ## `strconv.ParseInt` decode of formatted integers -/

theorem isDig_ne_underscore {c : Char} (h : isDig c = true) : c ≠ '_' := by
  intro hc
  have hb := isDig_toNat h
  rw [hc, show ('_').toNat = 95 from rfl] at hb
  omega

theorem isDig_ne_plus {c : Char} (h : isDig c = true) : c ≠ '+' := by
  intro hc
  have hb := isDig_toNat h
  rw [hc, show ('+').toNat = 43 from rfl] at hb
  omega

theorem digVal_of_dig {c : Char} (h : isDig c = true) :
    digVal c = some (c.toNat - 48) := by
  rw [digVal, if_pos (isDig_toNat h)]

theorem parseUintLoop_digits (l : List Char) :
    ∀ a : Nat, (∀ c ∈ l, isDig c = true) → decVal a l ≤ maxU64 →
      parseUintLoop 10 l a false = .ok (decVal a l, false) := by
  induction l with
  | nil => intro a _ _; rfl
  | cons c rest ih =>
    intro a hall hle
    have hc : isDig c = true := hall c (by simp)
    have hb := isDig_toNat hc
    have hdv : digVal c = some (c.toNat - 48) := digVal_of_dig hc
    have hpow : 0 < 10 ^ rest.length := pow_pos (by omega) _
    have hmin : a * 10 + (c.toNat - 48) ≤ decVal a (c :: rest) := by
      rw [decVal_cons, decVal_affine]
      have := Nat.le_mul_of_pos_right (a * 10 + (c.toNat - 48)) hpow
      omega
    have hM : maxU64 = 18446744073709551615 := rfl
    rw [hM] at hle
    rw [parseUintLoop, if_neg (isDig_ne_underscore hc), hdv]
    rw [if_neg (by simp), if_neg ?hd, if_neg ?hcut, if_neg ?hn1]
    case hd => simp only [Option.getD_some]; omega
    case hcut => rw [hM]; omega
    case hn1 => simp only [Option.getD_some]; rw [hM]; omega
    simp only [Option.getD_some]
    rw [ih (a * 10 + (c.toNat - 48)) (fun x hx => hall x (by simp [hx]))
      (by rw [← decVal_cons]; exact hle), ← decVal_cons]

theorem detectBase_natChars {n : Nat} (h : n ≠ 0) :
    detectBase (natChars n) = (10, natChars n) := by
  cases hl : natChars n with
  | nil => exact absurd hl (natChars_ne_nil n)
  | cons c t =>
    have hc0 : c ≠ '0' := by
      have hh := natChars_head_ne_zero h
      rw [hl] at hh
      simpa using hh
    simp only [detectBase]
    rw [if_neg hc0]

theorem parseUint0_natChars {n : Nat} (h : n ≤ maxU64) :
    parseUint0 (natChars n) = .ok n := by
  by_cases hn : n = 0
  · subst hn
    rw [natChars_lt (by omega)]
    rfl
  · cases hl : natChars n with
    | nil => exact absurd hl (natChars_ne_nil n)
    | cons c t =>
      rw [parseUint0, ← hl, detectBase_natChars hn]
      rw [parseUintLoop_digits (natChars n) 0 (natChars_all_dig n)
        (by rw [decVal_natChars]; exact h), decVal_natChars]
      show (if false = true ∧ underscoreOK (natChars n) = false then
        Except.error NumErr.synErr else Except.ok n) = Except.ok n
      rw [if_neg (by simp)]

theorem parseInt0i64_formatInt {v : Int} (h1 : -(2 ^ 63) ≤ v) (h2 : v < 2 ^ 63) :
    parseInt0i64 (formatInt v) = .ok v := by
  by_cases hv : v < 0
  · rw [formatInt, if_pos hv, formatNat_eq, parseInt0i64, if_pos (Or.inr rfl),
      parseUint0_natChars (show v.natAbs ≤ maxU64 by
        show v.natAbs ≤ 18446744073709551615; omega)]
    show (if ('-' : Char) ≠ '-' ∧ 2 ^ 63 ≤ v.natAbs then Except.error NumErr.rangeErr
      else if ('-' : Char) = '-' ∧ 2 ^ 63 < v.natAbs then Except.error NumErr.rangeErr
      else if ('-' : Char) = '-' then Except.ok (-(v.natAbs : Int))
      else Except.ok ((v.natAbs : Int))) = Except.ok v
    rw [if_neg (by simp), if_neg (by simp; omega), if_pos rfl]
    congr 1
    omega
  · rw [formatInt, if_neg hv, formatNat_eq]
    obtain ⟨c, t, hl⟩ : ∃ c t, natChars v.toNat = c :: t := by
      cases h : natChars v.toNat with
      | nil => exact absurd h (natChars_ne_nil _)
      | cons c t => exact ⟨c, t, rfl⟩
    have hdig : isDig c = true := natChars_all_dig _ c (by rw [hl]; simp)
    rw [hl, parseInt0i64,
      if_neg (not_or.mpr ⟨isDig_ne_plus hdig, isDig_ne_minus hdig⟩), ← hl,
      parseUint0_natChars (show v.toNat ≤ maxU64 by
        show v.toNat ≤ 18446744073709551615; omega)]
    show (if c ≠ '-' ∧ 2 ^ 63 ≤ v.toNat then Except.error NumErr.rangeErr
      else if c = '-' ∧ 2 ^ 63 < v.toNat then Except.error NumErr.rangeErr
      else if c = '-' then Except.ok (-(v.toNat : Int))
      else Except.ok ((v.toNat : Int))) = Except.ok v
    rw [if_neg (by push_neg; intro _; omega),
      if_neg (by rintro ⟨hc, -⟩; exact isDig_ne_minus hdig hc),
      if_neg (isDig_ne_minus hdig)]
    congr 1
    omega

/-! ## Codec-level helper lemmas -/

theorem unmarshalJSON_null (t : Timestamp) :
    unmarshalJSON t nullBytes = (⟨t.Time, false⟩, none) := by
  rw [unmarshalJSON, if_pos rfl]

theorem unmarshalJSON_err {t : Timestamp} {data : List Char}
    (h : (unmarshalJSON t data).2 ≠ none) :
    ∃ e, unmarshalJSON t data = (t, some (GoError.decodeJSON e)) := by
  by_cases hd : data = nullBytes
  · rw [unmarshalJSON, if_pos hd] at h
    exact absurd rfl h
  · rw [unmarshalJSON, if_neg hd] at h ⊢
    cases hj : jsonUnmarshalInt64 data with
    | ok o => rw [hj] at h; exact absurd rfl h
    | error e => exact ⟨e, rfl⟩

theorem unmarshalText_nullish {t : Timestamp} {text : List Char}
    (h : text = [] ∨ text = ['n', 'u', 'l', 'l']) :
    unmarshalText t text = (⟨t.Time, false⟩, none) := by
  rw [unmarshalText, if_pos h]

theorem unmarshalText_err {t : Timestamp} {text : List Char}
    (h : (unmarshalText t text).2 ≠ none) :
    ∃ e, unmarshalText t text = (t, some (GoError.decodeText e)) := by
  by_cases hd : text = [] ∨ text = ['n', 'u', 'l', 'l']
  · rw [unmarshalText, if_pos hd] at h
    exact absurd rfl h
  · rw [unmarshalText, if_neg hd] at h ⊢
    cases hj : parseInt0i64 text with
    | ok v => rw [hj] at h; exact absurd rfl h
    | error e => exact ⟨e, rfl⟩

theorem unmarshalText_ok (t : Timestamp) {text : List Char} {v : Int}
    (hne : ¬(text = [] ∨ text = ['n', 'u', 'l', 'l']))
    (hp : parseInt0i64 text = .ok v) :
    unmarshalText t text = (⟨timeUnix v, true⟩, none) := by
  rw [unmarshalText, if_neg hne, hp]

theorem marshalJSON_valid {t : Timestamp} (h : t.Valid = true) :
    marshalJSON t = (formatInt t.Time.unix, none) := by
  rw [marshalJSON, h]
  rfl

theorem marshalJSON_invalid {t : Timestamp} (h : t.Valid = false) :
    marshalJSON t = (nullBytes, none) := by
  rw [marshalJSON, h]
  rfl

theorem marshalText_valid {t : Timestamp} (h : t.Valid = true) :
    marshalText t = (formatInt t.Time.unix, none) := by
  rw [marshalText, h]
  rfl

theorem marshalText_invalid {t : Timestamp} (h : t.Valid = false) :
    marshalText t = ([], none) := by
  rw [marshalText, h]
  rfl

/-! ## Claims -/

/-- **C1**: for every instant `i` truncated to whole seconds (every Go
`Unix()` value is int64-ranged), marshalling `TimestampFrom i` through the
JSON boundary and unmarshalling the produced bytes into any receiver
succeeds and yields a Timestamp `Equal` to `TimestampFrom i`; likewise
through the text boundary. -/
theorem C1_wire_roundtrip (i : GoTime) (t0 : Timestamp) (h0 : i.nsec = 0)
    (h1 : -(2 ^ 63) ≤ i.unixSec) (h2 : i.unixSec < 2 ^ 63) :
    ((unmarshalJSON t0 (marshalJSON (TimestampFrom i)).1).2 = none ∧
      (unmarshalJSON t0 (marshalJSON (TimestampFrom i)).1).1.Equal
        (TimestampFrom i) = true) ∧
    ((unmarshalText t0 (marshalText (TimestampFrom i)).1).2 = none ∧
      (unmarshalText t0 (marshalText (TimestampFrom i)).1).1.Equal
        (TimestampFrom i) = true) := by
  have hmj : (marshalJSON (TimestampFrom i)).1 = formatInt i.unixSec := rfl
  have hmt : (marshalText (TimestampFrom i)).1 = formatInt i.unixSec := rfl
  have hj : unmarshalJSON t0 (formatInt i.unixSec) =
      (⟨timeUnix i.unixSec, true⟩, none) := by
    rw [unmarshalJSON, if_neg (formatInt_ne_null i.unixSec),
      jsonUnmarshalInt64_formatInt h1 h2]
    rfl
  have ht : unmarshalText t0 (formatInt i.unixSec) =
      (⟨timeUnix i.unixSec, true⟩, none) :=
    unmarshalText_ok t0
      (not_or.mpr ⟨formatInt_ne_nil i.unixSec, formatInt_ne_null i.unixSec⟩)
      (parseInt0i64_formatInt h1 h2)
  have heq : Timestamp.Equal ⟨timeUnix i.unixSec, true⟩ (TimestampFrom i) = true := by
    simp [Timestamp.Equal, GoTime.timeEqual, timeUnix, TimestampFrom, NewTimestamp, h0]
  rw [hmj, hmt, hj, ht]
  exact ⟨⟨rfl, heq⟩, ⟨rfl, heq⟩⟩

theorem C1_wire_roundtrip_witness :
    ((⟨1356124881, 0, 0⟩ : GoTime).nsec = 0) ∧
    ((unmarshalJSON ⟨zeroGoTime, false⟩
        (marshalJSON (TimestampFrom ⟨1356124881, 0, 0⟩)).1).1.Equal
      (TimestampFrom ⟨1356124881, 0, 0⟩) = true) :=
  ⟨rfl, ((C1_wire_roundtrip ⟨1356124881, 0, 0⟩ ⟨zeroGoTime, false⟩ rfl
    (by decide) (by decide)).1).2⟩

/-- **C2** (amended): on every input on which `UnmarshalJSON` (resp.
`UnmarshalText`) fails, the call returns a DecodeError wrapping the
underlying JSON (resp. numeric) parse error and leaves the receiver exactly
as it was — so a receiver already in the null state is still observed in the
null state, but a previously valid receiver stays valid. -/
theorem C2_decode_failure_state (t : Timestamp) (data : List Char) :
    ((unmarshalJSON t data).2 ≠ none →
      (∃ e, (unmarshalJSON t data).2 = some (GoError.decodeJSON e)) ∧
        (unmarshalJSON t data).1 = t) ∧
    ((unmarshalText t data).2 ≠ none →
      (∃ e, (unmarshalText t data).2 = some (GoError.decodeText e)) ∧
        (unmarshalText t data).1 = t) := by
  constructor
  · intro h
    obtain ⟨e, he⟩ := unmarshalJSON_err h
    rw [he]
    exact ⟨⟨e, rfl⟩, rfl⟩
  · intro h
    obtain ⟨e, he⟩ := unmarshalText_err h
    rw [he]
    exact ⟨⟨e, rfl⟩, rfl⟩

theorem C2_decode_failure_state_witness :
    (unmarshalJSON ⟨zeroGoTime, false⟩
        ['h', 'e', 'l', 'l', 'o', ' ', 'w', 'o', 'r', 'l', 'd']).2 ≠ none ∧
    (unmarshalJSON ⟨zeroGoTime, false⟩
        ['h', 'e', 'l', 'l', 'o', ' ', 'w', 'o', 'r', 'l', 'd']).1 =
      ⟨zeroGoTime, false⟩ :=
  ⟨by decide, ((C2_decode_failure_state ⟨zeroGoTime, false⟩
    ['h', 'e', 'l', 'l', 'o', ' ', 'w', 'o', 'r', 'l', 'd']).1 (by decide)).2⟩

/-- **C2** counterexample: a previously valid receiver is still valid after a
failed `UnmarshalJSON` (and after a failed `UnmarshalText`), refuting
"afterwards the receiver is in the null state (Valid is false)". -/
theorem C2_decode_failure_cex :
    (unmarshalJSON ⟨⟨5, 0, 0⟩, true⟩ ['h', 'i']).2 ≠ none ∧
    (unmarshalJSON ⟨⟨5, 0, 0⟩, true⟩ ['h', 'i']).1.Valid = true ∧
    (unmarshalText ⟨⟨5, 0, 0⟩, true⟩ ['h', 'i']).2 ≠ none ∧
    (unmarshalText ⟨⟨5, 0, 0⟩, true⟩ ['h', 'i']).1.Valid = true := by
  decide

/-- **C3** (amended): `UnmarshalJSON` of the literal `null`, and
`UnmarshalText` of the empty input or of `"null"`, succeed and set the
Timestamp invalid, leaving the `Time` field unchanged (it equals the
receiver's prior `Time`, not necessarily the zero instant). -/
theorem C3_null_decode (t : Timestamp) :
    unmarshalJSON t nullBytes = (⟨t.Time, false⟩, none) ∧
    unmarshalText t [] = (⟨t.Time, false⟩, none) ∧
    unmarshalText t ['n', 'u', 'l', 'l'] = (⟨t.Time, false⟩, none) :=
  ⟨unmarshalJSON_null t, unmarshalText_nullish (Or.inl rfl),
    unmarshalText_nullish (Or.inr rfl)⟩

/-- **C3** counterexample: decoding `null` into a receiver whose `Time` is
the instant 5 seconds after the epoch succeeds but leaves `Time` at that
instant, not at the zero instant. -/
theorem C3_null_decode_cex :
    (unmarshalJSON ⟨⟨5, 0, 0⟩, true⟩ nullBytes).2 = none ∧
    (unmarshalJSON ⟨⟨5, 0, 0⟩, true⟩ nullBytes).1.Time ≠ zeroGoTime := by
  decide

/-- **C4** (amended): `Scan` with an int64 or byte-sequence input fails with
TypeMismatch; afterwards the Timestamp's `Valid` flag is true with `Time`
unchanged — a state the spec tells callers not to rely on — so the receiver
neither remains nor becomes invalid. -/
theorem C4_scan_foreign (t : Timestamp) (v : Int) (b : List Char) :
    scan t (.int64v v) = (⟨t.Time, true⟩, some .typeMismatch) ∧
    scan t (.bytesv b) = (⟨t.Time, true⟩, some .typeMismatch) :=
  ⟨rfl, rfl⟩

/-- **C4** counterexample: `Scan(int64 42)` even on a previously invalid
(zero-valued) receiver fails with TypeMismatch yet leaves the receiver
valid, refuting "afterwards the Timestamp remains or becomes invalid
(Valid is false)". -/
theorem C4_scan_foreign_cex :
    (scan ⟨zeroGoTime, false⟩ (ScanValue.int64v 42)).2 = some GoError.typeMismatch ∧
    (scan ⟨zeroGoTime, false⟩ (ScanValue.int64v 42)).1.Valid = true := by
  decide

/-- **C5**: `MarshalJSON` of an invalid Timestamp is exactly `null`;
`UnmarshalJSON` of `null` yields an invalid Timestamp; `MarshalText` of an
invalid Timestamp is the empty sequence (never `"null"`); and
`UnmarshalText` of `""` and of `"null"` both succeed with an invalid
Timestamp. -/
theorem C5_null_wire (t u : Timestamp) (h : t.Valid = false) :
    marshalJSON t = (nullBytes, none) ∧
    marshalText t = ([], none) ∧
    (marshalText t).1 ≠ ['n', 'u', 'l', 'l'] ∧
    (unmarshalJSON u nullBytes).1.Valid = false ∧
    (unmarshalJSON u nullBytes).2 = none ∧
    (unmarshalText u []).1.Valid = false ∧
    (unmarshalText u []).2 = none ∧
    (unmarshalText u ['n', 'u', 'l', 'l']).1.Valid = false ∧
    (unmarshalText u ['n', 'u', 'l', 'l']).2 = none := by
  refine ⟨marshalJSON_invalid h, marshalText_invalid h, ?_, ?_, ?_, ?_, ?_, ?_, ?_⟩
  · rw [marshalText_invalid h]
    decide
  · rw [unmarshalJSON_null u]
  · rw [unmarshalJSON_null u]
  · rw [unmarshalText_nullish (Or.inl rfl)]
  · rw [unmarshalText_nullish (Or.inl rfl)]
  · rw [unmarshalText_nullish (Or.inr rfl)]
  · rw [unmarshalText_nullish (Or.inr rfl)]

theorem C5_null_wire_witness :
    ((⟨⟨7, 0, 0⟩, false⟩ : Timestamp).Valid = false) ∧
    marshalJSON ⟨⟨7, 0, 0⟩, false⟩ = (nullBytes, none) :=
  ⟨rfl, (C5_null_wire ⟨⟨7, 0, 0⟩, false⟩ ⟨⟨7, 0, 0⟩, false⟩ rfl).1⟩

/-- **C6**: two valid Timestamps wrapping the same absolute instant in
different locations are `Equal` but not `ExactEqual`; two invalid Timestamps
are both `Equal` and `ExactEqual` whatever their instant fields; a valid and
an invalid Timestamp are neither. -/
theorem C6_equal_exactEqual :
    (∀ x y : GoTime, x.unixSec = y.unixSec → x.nsec = y.nsec → x.loc ≠ y.loc →
      Timestamp.Equal ⟨x, true⟩ ⟨y, true⟩ = true ∧
        Timestamp.ExactEqual ⟨x, true⟩ ⟨y, true⟩ = false) ∧
    (∀ x y : GoTime, Timestamp.Equal ⟨x, false⟩ ⟨y, false⟩ = true ∧
      Timestamp.ExactEqual ⟨x, false⟩ ⟨y, false⟩ = true) ∧
    (∀ x y : GoTime,
      Timestamp.Equal ⟨x, true⟩ ⟨y, false⟩ = false ∧
      Timestamp.Equal ⟨x, false⟩ ⟨y, true⟩ = false ∧
      Timestamp.ExactEqual ⟨x, true⟩ ⟨y, false⟩ = false ∧
      Timestamp.ExactEqual ⟨x, false⟩ ⟨y, true⟩ = false) := by
  refine ⟨fun x y h1 h2 h3 => ⟨?_, ?_⟩, fun x y => ⟨?_, ?_⟩, fun x y => ⟨?_, ?_, ?_, ?_⟩⟩
  · simp [Timestamp.Equal, GoTime.timeEqual, h1, h2]
  · have hne : x ≠ y := fun hxy => h3 (by rw [hxy])
    simp [Timestamp.ExactEqual, hne]
  · simp [Timestamp.Equal]
  · simp [Timestamp.ExactEqual]
  · simp [Timestamp.Equal]
  · simp [Timestamp.Equal]
  · simp [Timestamp.ExactEqual]
  · simp [Timestamp.ExactEqual]

theorem C6_equal_exactEqual_witness :
    ((⟨100, 0, 0⟩ : GoTime).loc ≠ (⟨100, 0, 2⟩ : GoTime).loc) ∧
    Timestamp.Equal ⟨⟨100, 0, 0⟩, true⟩ ⟨⟨100, 0, 2⟩, true⟩ = true ∧
    Timestamp.ExactEqual ⟨⟨100, 0, 0⟩, true⟩ ⟨⟨100, 0, 2⟩, true⟩ = false :=
  ⟨by decide, (C6_equal_exactEqual.1 ⟨100, 0, 0⟩ ⟨100, 0, 2⟩ rfl rfl (by decide)).1,
    (C6_equal_exactEqual.1 ⟨100, 0, 0⟩ ⟨100, 0, 2⟩ rfl rfl (by decide)).2⟩

/-- **C7**: `IsZero` is true exactly when `Valid` is false; in particular a
valid Timestamp wrapping the zero instant is not zero, and
`TimestampFromPtr nil` is zero. -/
theorem C7_isZero (t : Timestamp) :
    t.IsZero = !t.Valid ∧ (TimestampFrom zeroGoTime).IsZero = false ∧
      (TimestampFromPtr none).IsZero = true :=
  ⟨rfl, rfl, rfl⟩

/-- **C8**: nonempty text input other than `"null"` is parsed with
`strconv.ParseInt(str, 0, 64)` — standard prefix detection, so `"0x10"`
parses as 16 — and on success the Timestamp becomes valid at that many
seconds since the epoch. -/
theorem C8_text_numeric (t : Timestamp) (s : List Char) (v : Int)
    (hne : s ≠ []) (hnull : s ≠ ['n', 'u', 'l', 'l'])
    (hp : parseInt0i64 s = .ok v) :
    unmarshalText t s = (⟨timeUnix v, true⟩, none) ∧
    parseInt0i64 ['0', 'x', '1', '0'] = .ok 16 ∧
    unmarshalText t ['0', 'x', '1', '0'] = (⟨timeUnix 16, true⟩, none) :=
  ⟨unmarshalText_ok t (not_or.mpr ⟨hne, hnull⟩) hp, by decide,
    unmarshalText_ok t (by decide) (by decide)⟩

theorem C8_text_numeric_witness :
    parseInt0i64 ['4', '2'] = .ok 42 ∧
    unmarshalText ⟨zeroGoTime, false⟩ ['4', '2'] = (⟨timeUnix 42, true⟩, none) :=
  ⟨by decide, (C8_text_numeric ⟨zeroGoTime, false⟩ ['4', '2'] 42
    (by decide) (by decide) (by decide)).1⟩

/-- **C9**: decode failure is atomic — whenever `UnmarshalJSON` or
`UnmarshalText` returns an error, both fields of the receiver are exactly
what they were before the call. -/
theorem C9_decode_atomic (t : Timestamp) (data : List Char) :
    ((unmarshalJSON t data).2 ≠ none →
      (unmarshalJSON t data).1.Time = t.Time ∧
        (unmarshalJSON t data).1.Valid = t.Valid) ∧
    ((unmarshalText t data).2 ≠ none →
      (unmarshalText t data).1.Time = t.Time ∧
        (unmarshalText t data).1.Valid = t.Valid) := by
  constructor
  · intro h
    obtain ⟨e, he⟩ := unmarshalJSON_err h
    rw [he]
    exact ⟨rfl, rfl⟩
  · intro h
    obtain ⟨e, he⟩ := unmarshalText_err h
    rw [he]
    exact ⟨rfl, rfl⟩

theorem C9_decode_atomic_witness :
    (unmarshalJSON ⟨⟨9, 0, 0⟩, true⟩ ['z']).2 ≠ none ∧
    (unmarshalJSON ⟨⟨9, 0, 0⟩, true⟩ ['z']).1.Valid = true := by
  refine ⟨by decide, ?_⟩
  have h := (C9_decode_atomic ⟨⟨9, 0, 0⟩, true⟩ ['z']).1 (by decide)
  rw [h.2]

/-- **C10**: for every valid Timestamp the JSON and text encodings are the
identical byte sequence — the decimal ASCII of `Time.Unix()` — with no
error; the two encodings differ exactly on invalid Timestamps (`null`
versus the empty sequence). -/
theorem C10_marshal_agree (t : Timestamp) :
    (t.Valid = true →
      marshalJSON t = (formatInt t.Time.unix, none) ∧
      marshalText t = (formatInt t.Time.unix, none) ∧
      (marshalJSON t).1 = (marshalText t).1) ∧
    (t.Valid = false →
      (marshalJSON t).1 = nullBytes ∧ (marshalText t).1 = [] ∧
      (marshalJSON t).1 ≠ (marshalText t).1) := by
  constructor
  · intro h
    refine ⟨marshalJSON_valid h, marshalText_valid h, ?_⟩
    rw [marshalJSON_valid h, marshalText_valid h]
  · intro h
    rw [marshalJSON_invalid h, marshalText_invalid h]
    exact ⟨rfl, rfl, by decide⟩

theorem C10_marshal_agree_witness :
    ((⟨⟨1356124881, 0, 0⟩, true⟩ : Timestamp).Valid = true) ∧
    (marshalJSON ⟨⟨1356124881, 0, 0⟩, true⟩).1 =
      (marshalText ⟨⟨1356124881, 0, 0⟩, true⟩).1 :=
  ⟨rfl, ((C10_marshal_agree ⟨⟨1356124881, 0, 0⟩, true⟩).1 rfl).2.2⟩

end NullPkg
